import Mathlib

/-!
Verification of `src/scripts/generate_prompts.py` (Uptime-Watcher repository).

The script reads a Stryker mutation-testing JSON report, groups the surviving
mutants by mutator name, renders a fixed textual prompt per surviving mutant,
and writes one text file per mutator group.  This file embeds the script's
pure logic shallowly in Lean:

* Python strings are Lean `String`s (lists of characters); the Python string
  primitives used by the script (`str.splitlines`, `str.strip`, `str.replace`,
  `str.lower`, `re.sub(r'\W+', '', ...)`) are modelled character-by-character
  over ASCII, which covers all report data the claims quantify over.
* The parsed JSON report is modelled by `ReportFile`/`ReportDoc`: `invalid`
  stands for a report file whose content is not valid JSON, and every JSON
  key the script looks up is an `Option` field (`none` = key absent).
* Python exceptions are modelled by `Except PyErr`; the script's file-system
  side effects (`mkdir`, `write_text`) and `print` calls are modelled as an
  explicit trace (`RunTrace`), produced in the order the statements execute.
-/

set_option autoImplicit false

namespace GeneratePrompts

/-! ## Python string primitives -/

/-- The ASCII whitespace characters removed by Python's `str.strip()`. -/
def pyIsSpace (c : Char) : Bool :=
  c = ' ' || c = '\t' || c = '\n' || c = '\r' || c = '\x0b' || c = '\x0c'

/-- Python `str.strip()`: drop leading and trailing whitespace. -/
def pyStrip (s : String) : String :=
  String.mk (((s.data.dropWhile pyIsSpace).reverse.dropWhile pyIsSpace).reverse)

/-- Split a character list at every newline; the accumulator holds the
current (reversed) segment. -/
def splitNlAux : List Char → List Char → List (List Char)
  | acc, [] => [acc.reverse]
  | acc, c :: cs =>
    if c = '\n' then acc.reverse :: splitNlAux [] cs else splitNlAux (c :: acc) cs

/-- Python `str.splitlines()` drops the empty segment a trailing newline
would otherwise produce (and yields `[]` on the empty string). -/
def dropLastEmpty (parts : List (List Char)) : List (List Char) :=
  match parts.getLast? with
  | some [] => parts.dropLast
  | _ => parts

/-- Python `str.splitlines()`, for `'\n'`-separated text (the only line
boundary occurring in the report data the script consumes). -/
def splitlines (s : String) : List String :=
  (dropLastEmpty (splitNlAux [] s.data)).map String.mk

/-- Python sequence indexing `xs[i]` with an `int` index: a negative index
counts from the end; an index out of range on either side is an error
(`none` here, `IndexError` at the call site). -/
def pyListGet (xs : List String) (i : Int) : Option String :=
  if 0 ≤ i then xs[i.toNat]?
  else if 0 ≤ i + xs.length then xs[(i + xs.length).toNat]?
  else none

/-- One scan step of Python `str.replace(old, "")`: at each position, if the
pattern matches, skip it and continue after it; otherwise keep the character.
The fuel argument (instantiated with the string length, which the scan never
exceeds) keeps the recursion structural so the kernel can evaluate it. -/
def replCharsFuel (pat : List Char) : Nat → List Char → List Char
  | _, [] => []
  | 0, s => s
  | fuel + 1, c :: cs =>
    if pat ≠ [] ∧ pat.isPrefixOf (c :: cs) = true then
      replCharsFuel pat fuel (cs.drop (pat.length - 1))
    else c :: replCharsFuel pat fuel cs

/-- Python `s.replace(old, "")`: remove every non-overlapping occurrence of
`old`, scanning left to right.  (`s.replace("", "")` is `s` in Python, which
the scan also yields since the empty pattern never triggers a skip.) -/
def pyReplaceAll (s old : String) : String :=
  String.mk (replCharsFuel old.data s.data.length s.data)

/-- Python `str.lower()` (ASCII case mapping). -/
def pyLower (s : String) : String :=
  String.mk (s.data.map Char.toLower)

/-- A Python `\w` word character (ASCII model): letter, digit or underscore. -/
def isWordChar (c : Char) : Bool :=
  c.isAlphanum || c = '_'

/-- Python occurrence test `pat in s` over character lists. -/
def containsSeq (pat : List Char) : List Char → Bool
  | [] => pat.isPrefixOf []
  | c :: cs => pat.isPrefixOf (c :: cs) || containsSeq pat cs

/-! ## Data model of the parsed report -/

/-- The Python exceptions the script can raise from the logic under study. -/
inductive PyErr where
  | jsonDecodeError
  | keyError (key : String)
  | indexError
deriving DecidableEq

/-- One mutant record of the report.  Every JSON key the script reads is an
`Option`; `location_start_line` collapses the lookup chain
`mutant["location"]["start"]["line"]` (a missing link anywhere is `none`). -/
structure Mutant where
  status : Option String
  location_start_line : Option Int
  replacement : Option String
  mutatorName : Option String
deriving DecidableEq

/-- One file entry of the report (`source` and `mutants` are read with
`.get`, so absence falls back to a default rather than an error). -/
structure FileEntry where
  source : Option String
  mutants : Option (List Mutant)
deriving DecidableEq

/-- The top-level parsed JSON document; `files` is `none` when the key is
absent.  The mapping keeps the document's native key order. -/
structure ReportDoc where
  files : Option (List (String × FileEntry))
deriving DecidableEq

/-- The report file as seen by `json.load`: either not valid JSON, or a
parsed document. -/
inductive ReportFile where
  | invalid
  | valid (doc : ReportDoc)
deriving DecidableEq

/-! ## The script's logic (from `src/scripts/generate_prompts.py`) -/

/-- `extract_original_line` (lines 27-29 of the source): note the guard only
checks `line_number <= len(lines)`; the lower side falls through to Python
list indexing, where a negative index counts from the end. -/
def extract_original_line (source_code : String) (line_number : Int) : Except PyErr String :=
  let lines := splitlines source_code
  if line_number ≤ (lines.length : Int) then
    match pyListGet lines (line_number - 1) with
    | some l => .ok (pyStrip l)
    | none => .error .indexError
  else .ok "N/A"

/-- The f-string template of lines 50-58 of the source. -/
def promptTemplate (local_path : String) (line : Int)
    (mutator original mutated : String) : String :=
  "Write a unit test to detect a survived mutation\n\n- File: `" ++ local_path ++
  "`\n- Line: " ++ toString line ++
  "\n- Mutator: `" ++ mutator ++
  "`\n- Original Code: `" ++ original ++
  "`\n- Mutated Code: `" ++ mutated ++
  "`\n\nThe test should fail if the mutation is present and pass otherwise."

/-- The grouping map `prompts_by_mutator`: a `defaultdict(list)` keeps keys
in first-insertion order, so it is an association list here. -/
abbrev Groups := List (String × List String)

/-- `prompts_by_mutator[mutator].append(prompt)`: extend the existing entry,
or add a new key at the end. -/
def appendGroup (gs : Groups) (k : String) (v : String) : Groups :=
  if gs.any (fun g => g.1 == k) then
    gs.map (fun g => if g.1 == k then (g.1, g.2 ++ [v]) else g)
  else gs ++ [(k, [v])]

/-- The body of the inner loop (lines 41-59 of the source) for one mutant:
skip unless the status is `"Survived"`, then read line, original, replacement
and mutator name in source order; each mandatory key lookup can raise. -/
def processMutant (local_path source_code : String) (gs : Groups) (m : Mutant) :
    Except PyErr Groups :=
  match m.status with
  | none => .error (.keyError "status")
  | some st =>
    if st ≠ "Survived" then .ok gs
    else
      match m.location_start_line with
      | none => .error (.keyError "location")
      | some line =>
        match extract_original_line source_code line with
        | .error e => .error e
        | .ok original =>
          let mutated := m.replacement.getD "N/A"
          match m.mutatorName with
          | none => .error (.keyError "mutatorName")
          | some mutator =>
            .ok (appendGroup gs mutator
              (promptTemplate local_path line mutator original mutated))

/-- The body of the outer loop (lines 37-59) for one `(file_path, file_data)`
entry: `local_path` via `str.replace`, `source` via `.get` with default `""`,
`mutants` via `.get` with default `[]`. -/
def processFile (base_path_to_strip : String) (gs : Groups)
    (entry : String × FileEntry) : Except PyErr Groups :=
  let local_path := pyReplaceAll entry.1 base_path_to_strip
  let source_code := entry.2.source.getD ""
  (entry.2.mutants.getD []).foldlM (processMutant local_path source_code) gs

/-- The whole grouping pass over `report["files"]`. -/
def buildGroups (base_path_to_strip : String)
    (files : List (String × FileEntry)) : Except PyErr Groups :=
  files.foldlM (processFile base_path_to_strip) []

/-- `filename = re.sub(r'\W+', '', mutator.lower())` (line 63): because the
replacement is the empty string, substituting each maximal `\W+` run and
deleting each `\W` character coincide. -/
def sanitizeMutator (m : String) : String :=
  String.mk ((pyLower m).data.filter isWordChar)

/-- The output file name `f"{filename}_prompts.txt"` of line 64. -/
def outputFilename (m : String) : String :=
  sanitizeMutator m ++ "_prompts.txt"

/-- An observable file-system side effect of the script. -/
inductive FSEvent where
  | mkdir (dir : String)
  | write (path : String) (content : String)
deriving DecidableEq

deriving instance DecidableEq for Except

/-- The observable behaviour of one run: file-system events and `print`
calls in execution order, and the function's outcome (`Option Int` is the
Python return value; the script's function ends without `return`, i.e. it
returns `None`). -/
structure RunTrace where
  events : List FSEvent
  printed : List String
  result : Except PyErr (Option Int)
deriving DecidableEq

/-- `generate_prompts_by_mutator` (lines 31-66 of the source).  The trace is
laid out in statement order: `json.load` (line 33) and the `report["files"]`
lookup (line 37) and the grouping loop all precede `output_dir.mkdir`
(line 61), so any error raised there leaves an empty event trace. -/
def generate_prompts_by_mutator (report_file : ReportFile) (output_dir : String)
    (base_path_to_strip : String) : RunTrace :=
  match report_file with
  | .invalid => ⟨[], [], .error .jsonDecodeError⟩
  | .valid doc =>
    match doc.files with
    | none => ⟨[], [], .error (.keyError "files")⟩
    | some files =>
      match buildGroups base_path_to_strip files with
      | .error e => ⟨[], [], .error e⟩
      | .ok gs =>
        ⟨FSEvent.mkdir output_dir ::
          gs.map (fun g => FSEvent.write (output_dir ++ "/" ++ outputFilename g.1)
            (String.intercalate "\n---\n" g.2)),
         ["Generated prompts for " ++ toString gs.length ++ " mutators in '" ++
           output_dir ++ "'"],
         .ok none⟩

/-! ## Spec-side and amended-claim comparison definitions -/

/-- Modelled from the spec's words for claim C2 only, as the refinement
comparison point: `localPath` is `filePath` with the literal prefix
`basePathPrefix` removed when present at the start, otherwise unchanged. -/
def spec_localPath (fp pre : String) : String :=
  if pre.data.isPrefixOf fp.data then String.mk (fp.data.drop pre.data.length) else fp

/-- The amended C3 behaviour, stated as an explicit four-way case split on
the line number: in range `[1, lineCount]` (trimmed line), above the range
(the `"N/A"` sentinel), non-positive but within Python's negative-index
range (the trimmed line counted from the end), and non-positive out of
range (an `IndexError`). -/
def amendedExtract (source_code : String) (line_number : Int) : Except PyErr String :=
  let lines := splitlines source_code
  if 1 ≤ line_number ∧ line_number ≤ (lines.length : Int) then
    .ok (pyStrip ((lines[(line_number - 1).toNat]?).getD ""))
  else if (lines.length : Int) < line_number then .ok "N/A"
  else if 0 ≤ line_number - 1 + lines.length then
    .ok (pyStrip ((lines[(line_number - 1 + lines.length).toNat]?).getD ""))
  else .error .indexError

/-! ## Well-formed reports and the flattened survivor view -/

/-- A mutant record the loop body can process without raising: the status
key is present and, when it equals `"Survived"`, the line (1-based, as the
mutation tool emits) and the mutator name are present too. -/
def mutantOk (m : Mutant) : Bool :=
  match m.status with
  | none => false
  | some st =>
    if st = "Survived" then
      match m.location_start_line, m.mutatorName with
      | some l, some _ => decide (1 ≤ l)
      | _, _ => false
    else true

/-- A report whose mutants all satisfy `mutantOk`. -/
def wellFormed (files : List (String × FileEntry)) : Bool :=
  files.all (fun e => (e.2.mutants.getD []).all mutantOk)

/-- The contribution of one mutant to the grouping map: `some (mutator,
prompt)` for a processable surviving mutant, `none` otherwise. -/
def mutantEntry (local_path source_code : String) (m : Mutant) :
    Option (String × String) :=
  match m.status with
  | none => none
  | some st =>
    if st ≠ "Survived" then none
    else
      match m.location_start_line with
      | none => none
      | some line =>
        match extract_original_line source_code line with
        | .error _ => none
        | .ok original =>
          match m.mutatorName with
          | none => none
          | some mutator =>
            some (mutator, promptTemplate local_path line mutator original
              (m.replacement.getD "N/A"))

/-- All `(mutatorName, prompt)` pairs of the report's surviving mutants, in
encounter order: files in the mapping's native order, each file's mutants in
sequence order. -/
def survivorEntries (base_path_to_strip : String)
    (files : List (String × FileEntry)) : List (String × String) :=
  files.flatMap (fun e =>
    (e.2.mutants.getD []).filterMap
      (mutantEntry (pyReplaceAll e.1 base_path_to_strip) (e.2.source.getD "")))

/-- Replay the grouping insertions over a flattened entry list. -/
def groupFold (entries : List (String × String)) : Groups :=
  entries.foldl (fun a e => appendGroup a e.1 e.2) []

def groupKeys (gs : Groups) : List String := gs.map Prod.fst

/-- Add a key at the end unless already present (dict key-insertion order). -/
def insertKey (ks : List String) (k : String) : List String :=
  if k ∈ ks then ks else ks ++ [k]

/-- The distinct elements of a list in first-occurrence order. -/
def dedupFold (l : List String) : List String := l.foldl insertKey []

def lookupGroup (gs : Groups) (k : String) : List String :=
  match gs.find? (fun g => g.1 == k) with
  | some g => g.2
  | none => []

/-- The concrete one-file, one-surviving-mutant report of claim C6 (file
`"x/y.js"` with source `"let a = 1;"`, one `"Survived"` mutant at line 1,
mutator `"Foo"`, no replacement). -/
def filesC6 : List (String × FileEntry) :=
  [("x/y.js", ⟨some "let a = 1;", some [⟨some "Survived", some 1, none, some "Foo"⟩]⟩)]

/-- A report with two surviving mutants whose mutator names `"Foo"` and
`"F*oo"` are distinct but sanitize to the same filename stem `foo` (for
claim C9). -/
def filesC9 : List (String × FileEntry) :=
  [("a.js", ⟨some "x\ny",
    some [⟨some "Survived", some 1, some "r1", some "Foo"⟩,
          ⟨some "Survived", some 2, some "r2", some "F*oo"⟩]⟩)]

/-- Replay one of the run's file-system events against a directory state
(an association list from path to content): `mkdir` changes no file, and a
write to an existing path overwrites its content (`Path.write_text`
truncates), otherwise it creates the file at the end. -/
def applyEvent (fs : List (String × String)) : FSEvent → List (String × String)
  | .mkdir _ => fs
  | .write p c =>
    if fs.any (fun q => q.1 == p) then
      fs.map (fun q => if q.1 == p then (q.1, c) else q)
    else fs ++ [(p, c)]

/-- The directory contents after replaying a whole event trace against an
initially empty directory. -/
def finalFiles (events : List FSEvent) : List (String × String) :=
  events.foldl applyEvent []

def lookupFile (fs : List (String × String)) (p : String) : Option String :=
  (fs.find? (fun q => q.1 == p)).map Prod.snd

/-! ## Helper lemmas: `str.replace` scan -/

lemma replCharsFuel_fuel (pat : List Char) :
    ∀ (f₁ f₂ : Nat) (s : List Char), s.length ≤ f₁ → s.length ≤ f₂ →
      replCharsFuel pat f₁ s = replCharsFuel pat f₂ s := by
  intro f₁
  induction f₁ with
  | zero =>
    intro f₂ s h1 _
    have hs : s = [] := List.length_eq_zero.mp (Nat.le_zero.mp h1)
    subst hs; cases f₂ <;> rfl
  | succ f ih =>
    intro f₂ s h1 h2
    cases s with
    | nil => cases f₂ <;> rfl
    | cons c cs =>
      cases f₂ with
      | zero => simp at h2
      | succ f₂' =>
        simp only [List.length_cons] at h1 h2
        simp only [replCharsFuel]
        split
        · exact ih f₂' _ (by simp only [List.length_drop]; omega)
            (by simp only [List.length_drop]; omega)
        · rw [ih f₂' cs (by omega) (by omega)]

lemma replCharsFuel_of_leading (pat : List Char) (s : List Char) (f : Nat)
    (hne : pat ≠ []) (hpre : pat.isPrefixOf s = true) (hf : s.length ≤ f) :
    replCharsFuel pat f s =
      replCharsFuel pat (s.drop pat.length).length (s.drop pat.length) := by
  cases s with
  | nil =>
    cases pat with
    | nil => exact absurd rfl hne
    | cons p ps => simp [List.isPrefixOf] at hpre
  | cons c cs =>
    cases f with
    | zero => simp at hf
    | succ f' =>
      simp only [replCharsFuel]
      rw [if_pos ⟨hne, hpre⟩]
      cases pat with
      | nil => exact absurd rfl hne
      | cons p ps =>
        have hdrop : (c :: cs).drop (p :: ps).length = cs.drop ((p :: ps).length - 1) := by
          simp [List.drop]
        rw [hdrop]
        simp only [List.length_cons] at hf
        exact replCharsFuel_fuel _ _ _ _
          (by simp only [List.length_drop]; omega) le_rfl

lemma replCharsFuel_of_not_contains (pat : List Char) :
    ∀ (f : Nat) (s : List Char), s.length ≤ f → containsSeq pat s = false →
      replCharsFuel pat f s = s := by
  intro f
  induction f with
  | zero =>
    intro s h1 _
    have hs : s = [] := List.length_eq_zero.mp (Nat.le_zero.mp h1)
    subst hs; rfl
  | succ f ih =>
    intro s h1 hc
    cases s with
    | nil => rfl
    | cons c cs =>
      simp only [containsSeq, Bool.or_eq_false_iff] at hc
      simp only [replCharsFuel]
      rw [if_neg (by rintro ⟨-, hp⟩; rw [hc.1] at hp; exact Bool.false_ne_true hp)]
      rw [ih cs (by simp only [List.length_cons] at h1; omega) hc.2]

lemma pyReplaceAll_of_leading (fp pre : String) (hne : pre ≠ "")
    (h : pre.data.isPrefixOf fp.data = true) :
    pyReplaceAll fp pre = pyReplaceAll (String.mk (fp.data.drop pre.data.length)) pre := by
  have hne' : pre.data ≠ [] := by
    intro hd; apply hne; cases pre; simp_all
  unfold pyReplaceAll
  exact congrArg String.mk (replCharsFuel_of_leading _ _ _ hne' h le_rfl)

lemma pyReplaceAll_of_not_contains (fp pre : String)
    (h : containsSeq pre.data fp.data = false) : pyReplaceAll fp pre = fp := by
  unfold pyReplaceAll
  rw [replCharsFuel_of_not_contains _ _ _ le_rfl h]

/-! ## Claims C1, C2, C3 -/

/-- Claim C1 fails as stated: the code deletes non-word runs (replacement
string is empty), it does not replace them with an underscore, so
`"Block Statement/Removal"` does not map to
`"block_statement_removal_prompts.txt"`. -/
theorem C1_counterexample :
    outputFilename "Block Statement/Removal" ≠ "block_statement_removal_prompts.txt" := by
  decide

/-- Claim C1 (amended): the output filename is derived by lower-casing the
mutator name and deleting every character that is not an ASCII letter, digit
or underscore (so the sanitized stem is a subsequence of the lowered name —
nothing is inserted in place of the removed runs), then appending
`"_prompts.txt"`; in particular `"Block Statement/Removal"` maps to
`"blockstatementremoval_prompts.txt"`. -/
theorem C1_theorem (m : String) :
    (∀ c ∈ (sanitizeMutator m).data, isWordChar c = true) ∧
    List.Sublist (sanitizeMutator m).data (pyLower m).data ∧
    outputFilename "Block Statement/Removal" = "blockstatementremoval_prompts.txt" := by
  refine ⟨?_, ?_, by decide⟩
  · intro c hc
    have hd : (sanitizeMutator m).data = (pyLower m).data.filter isWordChar := rfl
    rw [hd] at hc
    exact (List.mem_filter.mp hc).2
  · exact List.filter_sublist _

/-- Claim C2 fails as stated: Python `str.replace` removes every occurrence
of the prefix, not only a leading one.  On `filePath = "ax/y"`,
`basePathPrefix = "x/"` the code yields `"ay"` although the path does not
start with the prefix, where the claim demands the unchanged `"ax/y"`. -/
theorem C2_counterexample :
    pyReplaceAll "ax/y" "x/" = "ay" ∧ spec_localPath "ax/y" "x/" = "ax/y" ∧
      ("ay" : String) ≠ "ax/y" := by
  decide

/-- Claim C2 (amended): `localPath` equals `filePath` with every
non-overlapping occurrence of `basePathPrefix` removed, scanning left to
right (Python `str.replace` with an empty replacement) — a leading
occurrence is removed (first conjunct), a path without any occurrence is
unchanged (second conjunct), and non-leading occurrences are removed as
well (third conjunct). -/
theorem C2_theorem (fp pre : String) (hne : pre ≠ "") :
    (pre.data.isPrefixOf fp.data = true →
      pyReplaceAll fp pre = pyReplaceAll (String.mk (fp.data.drop pre.data.length)) pre) ∧
    (containsSeq pre.data fp.data = false → pyReplaceAll fp pre = fp) ∧
    pyReplaceAll "ax/yx/z" "x/" = "ayz" := by
  refine ⟨fun h => pyReplaceAll_of_leading fp pre hne h,
    fun h => pyReplaceAll_of_not_contains fp pre h, by decide⟩

theorem C2_witness :
    pyReplaceAll "x/ax/y" "x/" =
      pyReplaceAll (String.mk ((String.data "x/ax/y").drop (String.data "x/").length)) "x/" :=
  ( C2_theorem
    "x/ax/y" "x/" (by decide)).1 (by decide)

/-- Claim C3 fails as stated: the guard in the source only checks the upper
bound, so a non-positive line number falls through to Python list indexing.
With source text `"a\nb\nc"` and line number `0` the code returns the last
line `"c"` (negative indexing), not `"N/A"`; with empty source text and line
number `0` it raises `IndexError`, so the function is not total either. -/
theorem C3_counterexample :
    extract_original_line "a\nb\nc" 0 = .ok "c" ∧
    extract_original_line "" 0 = .error .indexError ∧
    ("c" : String) ≠ "N/A" := by
  decide

/-- Claim C3 (amended): `extract_original_line` returns the whitespace-
trimmed `(lineNumber-1)`-indexed line when `lineNumber ∈ [1, lineCount]` and
the sentinel `"N/A"` when `lineNumber > lineCount`; but for
`lineNumber ≤ 0` Python's negative indexing applies: the line indexed
`lineCount + lineNumber - 1` is returned (trimmed) when that index is
non-negative, and an `IndexError` is raised otherwise — in particular for
every `lineNumber ≤ 0` on empty source text. -/
theorem C3_theorem (s : String) (n : Int) :
    extract_original_line s n = amendedExtract s n := by
  unfold extract_original_line amendedExtract pyListGet
  set L := splitlines s with hL
  by_cases h1 : n ≤ (L.length : Int)
  · rw [if_pos h1]
    by_cases h2 : 0 ≤ n - 1
    · have hn1 : 1 ≤ n := by omega
      have hidx : (n - 1).toNat < L.length := by omega
      rw [if_pos h2, if_pos ⟨hn1, h1⟩]
      obtain ⟨a, ha⟩ : ∃ a, L[(n - 1).toNat]? = some a :=
        ⟨_, List.getElem?_eq_getElem hidx⟩
      rw [ha]
      rfl
    · rw [if_neg h2, if_neg (by omega : ¬(1 ≤ n ∧ n ≤ (L.length : Int))),
        if_neg (by omega : ¬(L.length : Int) < n)]
      by_cases h3 : 0 ≤ n - 1 + L.length
      · have hidx : (n - 1 + L.length).toNat < L.length := by omega
        rw [if_pos h3, if_pos h3]
        obtain ⟨a, ha⟩ : ∃ a, L[(n - 1 + L.length).toNat]? = some a :=
          ⟨_, List.getElem?_eq_getElem hidx⟩
        rw [ha]
        rfl
      · rw [if_neg h3, if_neg h3]
  · rw [if_neg h1, if_neg (by omega : ¬(1 ≤ n ∧ n ≤ (L.length : Int))),
      if_pos (by omega : (L.length : Int) < n)]

/-! ## Grouping lemmas -/

lemma except_bind_ok {α β : Type} (a : α) (f : α → Except PyErr β) :
    (Except.ok a >>= f) = f a := rfl

lemma extract_ok (src : String) (l : Int) (hl : 1 ≤ l) :
    ∃ s, extract_original_line src l = .ok s := by
  unfold extract_original_line pyListGet
  set L := splitlines src
  by_cases h : l ≤ (L.length : Int)
  · rw [if_pos h, if_pos (by omega : (0:Int) ≤ l - 1)]
    have hidx : (l - 1).toNat < L.length := by omega
    obtain ⟨a, ha⟩ : ∃ a, L[(l - 1).toNat]? = some a :=
      ⟨_, List.getElem?_eq_getElem hidx⟩
    rw [ha]
    exact ⟨_, rfl⟩
  · rw [if_neg h]
    exact ⟨_, rfl⟩

lemma foldlM_mutants (lp src : String) :
    ∀ (ms : List Mutant), (∀ m ∈ ms, mutantOk m = true) → ∀ gs,
      ms.foldlM (processMutant lp src) gs =
        .ok ((ms.filterMap (mutantEntry lp src)).foldl
          (fun a e => appendGroup a e.1 e.2) gs) := by
  intro ms
  induction ms with
  | nil => intro _ gs; rfl
  | cons m ms ih =>
    intro hok gs
    have hm := hok m (List.mem_cons_self m ms)
    have hms : ∀ m' ∈ ms, mutantOk m' = true :=
      fun m' h => hok m' (List.mem_cons_of_mem _ h)
    rw [List.foldlM_cons]
    cases hst : m.status with
    | none => simp [mutantOk, hst] at hm
    | some st =>
      by_cases hsur : st = "Survived"
      · subst hsur
        cases hline : m.location_start_line with
        | none => simp [mutantOk, hst, hline] at hm
        | some l =>
          cases hmu : m.mutatorName with
          | none => simp [mutantOk, hst, hline, hmu] at hm
          | some mu =>
            have hl : 1 ≤ l := by
              simp only [mutantOk, hst, hline, hmu] at hm
              simpa using hm
            obtain ⟨orig, horig⟩ := extract_ok src l hl
            have hproc : processMutant lp src gs m =
                .ok (appendGroup gs mu (promptTemplate lp l mu orig
                  (m.replacement.getD "N/A"))) := by
              simp only [processMutant, hst, hline, hmu, horig]
              simp
            have hent : mutantEntry lp src m =
                some (mu, promptTemplate lp l mu orig (m.replacement.getD "N/A")) := by
              simp only [mutantEntry, hst, hline, hmu, horig]
              simp
            rw [hproc, except_bind_ok, List.filterMap_cons_some hent,
              List.foldl_cons, ih hms]
      · have hproc : processMutant lp src gs m = .ok gs := by
          simp only [processMutant, hst]
          rw [if_pos hsur]
        have hent : mutantEntry lp src m = none := by
          simp only [mutantEntry, hst]
          rw [if_pos hsur]
        rw [hproc, except_bind_ok, List.filterMap_cons_none hent, ih hms]

lemma foldlM_files (base : String) :
    ∀ (files : List (String × FileEntry)), wellFormed files = true → ∀ gs,
      files.foldlM (processFile base) gs =
        .ok ((survivorEntries base files).foldl
          (fun a e => appendGroup a e.1 e.2) gs) := by
  intro files
  induction files with
  | nil => intro _ gs; rfl
  | cons e fs ih =>
    intro hwf gs
    simp only [wellFormed, List.all_cons, Bool.and_eq_true] at hwf
    rw [List.foldlM_cons]
    have he : processFile base gs e =
        .ok (((e.2.mutants.getD []).filterMap
          (mutantEntry (pyReplaceAll e.1 base) (e.2.source.getD ""))).foldl
            (fun a x => appendGroup a x.1 x.2) gs) := by
      unfold processFile
      refine foldlM_mutants _ _ _ ?_ gs
      intro m hmem
      have h1 := hwf.1
      rw [List.all_eq_true] at h1
      exact h1 m hmem
    rw [he, except_bind_ok, ih hwf.2]
    congr 1
    simp only [survivorEntries, List.flatMap_cons, List.foldl_append]

lemma buildGroups_eq (base : String) (files : List (String × FileEntry))
    (hwf : wellFormed files = true) :
    buildGroups base files = .ok (groupFold (survivorEntries base files)) :=
  foldlM_files base files hwf []

lemma run_wf (od base : String) (files : List (String × FileEntry))
    (hwf : wellFormed files = true) :
    generate_prompts_by_mutator (.valid ⟨some files⟩) od base =
      ⟨FSEvent.mkdir od :: (groupFold (survivorEntries base files)).map
        (fun g => FSEvent.write (od ++ "/" ++ outputFilename g.1)
          (String.intercalate "\n---\n" g.2)),
       ["Generated prompts for " ++
         toString (groupFold (survivorEntries base files)).length ++
         " mutators in '" ++ od ++ "'"],
       .ok none⟩ := by
  simp only [generate_prompts_by_mutator]
  rw [buildGroups_eq base files hwf]

/-! ## Association-list lemmas for the grouping map -/

lemma any_fst_eq (gs : Groups) (k : String) :
    gs.any (fun g => g.1 == k) = true ↔ k ∈ groupKeys gs := by
  induction gs with
  | nil => simp [groupKeys]
  | cons g gs ih =>
    rw [List.any_cons, Bool.or_eq_true, ih]
    unfold groupKeys
    rw [List.map_cons, List.mem_cons]
    constructor
    · rintro (h | h)
      · exact Or.inl (eq_of_beq h).symm
      · exact Or.inr h
    · rintro (h | h)
      · exact Or.inl (by rw [h]; exact beq_self_eq_true g.1)
      · exact Or.inr h

lemma find?_groups_cons_pos {g : String × List String} {gs : Groups} {k : String}
    (h : (g.1 == k) = true) :
    (g :: gs).find? (fun x => x.1 == k) = some g :=
  List.find?_cons_of_pos gs h

lemma find?_groups_cons_neg {g : String × List String} {gs : Groups} {k : String}
    (h : ¬ (g.1 == k) = true) :
    (g :: gs).find? (fun x => x.1 == k) = gs.find? (fun x => x.1 == k) :=
  List.find?_cons_of_neg gs h

lemma lookupGroup_map_update (k v : String) :
    ∀ (gs : Groups), gs.any (fun g => g.1 == k) = true →
      lookupGroup (gs.map (fun g => if g.1 == k then (g.1, g.2 ++ [v]) else g)) k =
        lookupGroup gs k ++ [v] := by
  intro gs
  induction gs with
  | nil => intro h; simp at h
  | cons g gs ih =>
    intro h
    by_cases hg : (g.1 == k) = true
    · rw [List.map_cons, if_pos hg]
      unfold lookupGroup
      rw [find?_groups_cons_pos (g := (g.1, g.2 ++ [v])) hg, find?_groups_cons_pos hg]
    · have h' : gs.any (fun g => g.1 == k) = true := by
        rw [List.any_cons, Bool.or_eq_true] at h
        exact h.resolve_left hg
      rw [List.map_cons, if_neg hg]
      unfold lookupGroup
      rw [find?_groups_cons_neg hg, find?_groups_cons_neg hg]
      exact ih h'

lemma lookupGroup_append_right (k : String) :
    ∀ (gs tail : Groups), gs.any (fun g => g.1 == k) = false →
      lookupGroup (gs ++ tail) k = lookupGroup tail k := by
  intro gs
  induction gs with
  | nil => intro tail _; rfl
  | cons g gs ih =>
    intro tail h
    rw [List.any_cons, Bool.or_eq_false_iff] at h
    rw [List.cons_append]
    unfold lookupGroup
    rw [find?_groups_cons_neg (by rw [h.1]; exact Bool.false_ne_true)]
    exact ih tail h.2

lemma lookupGroup_empty_of_not_mem (k : String) (gs : Groups)
    (h : gs.any (fun g => g.1 == k) = false) : lookupGroup gs k = [] := by
  have h2 := lookupGroup_append_right k gs [] h
  rw [List.append_nil] at h2
  exact h2

lemma lookupGroup_appendGroup_self (gs : Groups) (k v : String) :
    lookupGroup (appendGroup gs k v) k = lookupGroup gs k ++ [v] := by
  unfold appendGroup
  by_cases h : gs.any (fun g => g.1 == k) = true
  · rw [if_pos h]
    exact lookupGroup_map_update k v gs h
  · have h' : gs.any (fun g => g.1 == k) = false := by
      cases hb : gs.any (fun g => g.1 == k)
      · rfl
      · exact absurd hb h
    rw [if_neg h, lookupGroup_append_right k gs [(k, [v])] h',
      lookupGroup_empty_of_not_mem k gs h']
    unfold lookupGroup
    rw [find?_groups_cons_pos (beq_self_eq_true k)]
    rfl

lemma lookupGroup_appendGroup_other (gs : Groups) (k v k' : String) (hk : k' ≠ k) :
    lookupGroup (appendGroup gs k v) k' = lookupGroup gs k' := by
  unfold appendGroup
  by_cases h : gs.any (fun g => g.1 == k) = true
  · rw [if_pos h]
    clear h
    induction gs with
    | nil => rfl
    | cons g gs ih =>
      rw [List.map_cons]
      by_cases hg : (g.1 == k) = true
      · rw [if_pos hg]
        by_cases hg' : (g.1 == k') = true
        · exact absurd ((eq_of_beq hg').symm.trans (eq_of_beq hg)) hk
        · unfold lookupGroup
          rw [find?_groups_cons_neg (g := (g.1, g.2 ++ [v])) hg', find?_groups_cons_neg hg']
          exact ih
      · rw [if_neg hg]
        by_cases hg' : (g.1 == k') = true
        · unfold lookupGroup
          rw [find?_groups_cons_pos hg', find?_groups_cons_pos hg']
        · unfold lookupGroup
          rw [find?_groups_cons_neg hg', find?_groups_cons_neg hg']
          exact ih
  · rw [if_neg h]
    clear h
    induction gs with
    | nil =>
      rw [List.nil_append]
      unfold lookupGroup
      rw [find?_groups_cons_neg (by
        intro hb
        exact hk (eq_of_beq hb).symm)]
    | cons g gs ih =>
      rw [List.cons_append]
      by_cases hg' : (g.1 == k') = true
      · unfold lookupGroup
        rw [find?_groups_cons_pos hg', find?_groups_cons_pos hg']
      · unfold lookupGroup
        rw [find?_groups_cons_neg hg', find?_groups_cons_neg hg']
        exact ih

lemma filter_entries_cons_pos {e : String × String} {es : List (String × String)}
    {k : String} (h : (e.1 == k) = true) :
    (e :: es).filter (fun x => x.1 == k) = e :: es.filter (fun x => x.1 == k) :=
  List.filter_cons_of_pos h

lemma filter_entries_cons_neg {e : String × String} {es : List (String × String)}
    {k : String} (h : ¬ (e.1 == k) = true) :
    (e :: es).filter (fun x => x.1 == k) = es.filter (fun x => x.1 == k) :=
  List.filter_cons_of_neg h

lemma lookupGroup_groupFold_gen (k : String) :
    ∀ (entries : List (String × String)) (gs : Groups),
      lookupGroup (entries.foldl (fun a e => appendGroup a e.1 e.2) gs) k =
        lookupGroup gs k ++ (entries.filter (fun e => e.1 == k)).map Prod.snd := by
  intro entries
  induction entries with
  | nil => intro gs; simp
  | cons e es ih =>
    intro gs
    rw [List.foldl_cons]
    by_cases he : (e.1 == k) = true
    · have hek : e.1 = k := eq_of_beq he
      rw [ih, filter_entries_cons_pos he, List.map_cons, hek,
        lookupGroup_appendGroup_self]
      simp
    · have hk : k ≠ e.1 := fun hh => he (by rw [hh]; exact beq_self_eq_true e.1)
      rw [ih, lookupGroup_appendGroup_other gs e.1 e.2 k hk,
        filter_entries_cons_neg he]

lemma groupKeys_map_update (k v : String) (gs : Groups) :
    groupKeys (gs.map (fun g => if g.1 == k then (g.1, g.2 ++ [v]) else g)) =
      groupKeys gs := by
  induction gs with
  | nil => rfl
  | cons g gs ih =>
    unfold groupKeys at *
    rw [List.map_cons, List.map_cons, List.map_cons]
    congr 1
    by_cases hg : (g.1 == k) = true
    · rw [if_pos hg]
    · rw [if_neg hg]

lemma groupKeys_appendGroup (gs : Groups) (k v : String) :
    groupKeys (appendGroup gs k v) = insertKey (groupKeys gs) k := by
  unfold appendGroup insertKey
  by_cases h : gs.any (fun g => g.1 == k) = true
  · rw [if_pos h, if_pos ((any_fst_eq gs k).mp h), groupKeys_map_update]
  · have h' : ¬ k ∈ groupKeys gs := fun hm => h ((any_fst_eq gs k).mpr hm)
    rw [if_neg h, if_neg h']
    unfold groupKeys
    rw [List.map_append]
    rfl

lemma groupKeys_groupFold_gen :
    ∀ (entries : List (String × String)) (gs : Groups),
      groupKeys (entries.foldl (fun a e => appendGroup a e.1 e.2) gs) =
        (entries.map Prod.fst).foldl insertKey (groupKeys gs) := by
  intro entries
  induction entries with
  | nil => intro gs; rfl
  | cons e es ih =>
    intro gs
    rw [List.foldl_cons, List.map_cons, List.foldl_cons, ih, groupKeys_appendGroup]

lemma mem_insertKey (ks : List String) (k x : String) :
    x ∈ insertKey ks k ↔ x ∈ ks ∨ x = k := by
  unfold insertKey
  by_cases h : k ∈ ks
  · rw [if_pos h]
    constructor
    · exact Or.inl
    · rintro (hx | rfl)
      · exact hx
      · exact h
  · rw [if_neg h]
    simp

lemma mem_foldl_insertKey :
    ∀ (l ks : List String) (x : String),
      x ∈ l.foldl insertKey ks ↔ x ∈ ks ∨ x ∈ l := by
  intro l
  induction l with
  | nil => intro ks x; simp
  | cons a t ih =>
    intro ks x
    rw [List.foldl_cons, ih, mem_insertKey, List.mem_cons]
    tauto

lemma nodup_insertKey (ks : List String) (k : String) (h : ks.Nodup) :
    (insertKey ks k).Nodup := by
  unfold insertKey
  by_cases hm : k ∈ ks
  · rw [if_pos hm]
    exact h
  · rw [if_neg hm]
    rw [List.nodup_append]
    refine ⟨h, List.nodup_singleton k, ?_⟩
    intro a ha hak
    exact hm (by rwa [List.mem_singleton.mp hak] at ha)

lemma nodup_foldl_insertKey :
    ∀ (l ks : List String), ks.Nodup → (l.foldl insertKey ks).Nodup := by
  intro l
  induction l with
  | nil => intro ks h; exact h
  | cons a t ih =>
    intro ks h
    rw [List.foldl_cons]
    exact ih _ (nodup_insertKey ks a h)

lemma find?_key_of_mem (k : String) :
    ∀ (gs : Groups), k ∈ groupKeys gs →
      ∃ g, gs.find? (fun g => g.1 == k) = some g ∧ g.1 = k ∧
        g.2 = lookupGroup gs k := by
  intro gs
  induction gs with
  | nil => intro h; simp [groupKeys] at h
  | cons g gs ih =>
    intro h
    by_cases hg : (g.1 == k) = true
    · refine ⟨g, find?_groups_cons_pos hg, eq_of_beq hg, ?_⟩
      unfold lookupGroup
      rw [find?_groups_cons_pos hg]
    · have h' : k ∈ groupKeys gs := by
        unfold groupKeys at h
        rw [List.map_cons, List.mem_cons] at h
        rcases h with h | h
        · exfalso
          apply hg
          rw [h]
          exact beq_self_eq_true g.1
        · exact h
      obtain ⟨g', hfind, hk1, hk2⟩ := ih h'
      refine ⟨g', ?_, hk1, ?_⟩
      · rw [find?_groups_cons_neg (g := g) hg]
        exact hfind
      · unfold lookupGroup
        rw [find?_groups_cons_neg (g := g) hg]
        exact hk2

/-! ## Claims C4, C6, C7, C8 -/

/-- Claim C4 fails as stated: the Python function body ends without a
`return` statement, so the call returns `None` — the group count is only
printed.  On a well-formed one-survivor report the result value is `None`,
not the integer `1` the claim demands. -/
theorem C4_counterexample :
    (generate_prompts_by_mutator (.valid ⟨some filesC6⟩)
        "stryker_prompts_by_mutator" "x/").result = .ok none ∧
    (Except.ok (none : Option Int) : Except PyErr (Option Int)) ≠ .ok (some 1) := by
  constructor
  · rfl
  · decide

/-- Claim C4 (amended): for every well-formed report the function prints a
single summary line naming the number of distinct mutator groups — equal to
the number of distinct `mutatorName` values among surviving mutants — and
returns `None` (no `return` statement); the count is reported by `print`,
not through the return value. -/
theorem C4_theorem (od base : String) (files : List (String × FileEntry))
    (hwf : wellFormed files = true) :
    (generate_prompts_by_mutator (.valid ⟨some files⟩) od base).printed =
      ["Generated prompts for " ++
        toString (dedupFold ((survivorEntries base files).map Prod.fst)).length ++
        " mutators in '" ++ od ++ "'"] ∧
    (generate_prompts_by_mutator (.valid ⟨some files⟩) od base).result = .ok none := by
  rw [run_wf od base files hwf]
  refine ⟨?_, rfl⟩
  have hlen : (groupFold (survivorEntries base files)).length =
      (dedupFold ((survivorEntries base files).map Prod.fst)).length := by
    have h1 := groupKeys_groupFold_gen (survivorEntries base files) []
    unfold groupFold dedupFold
    calc ((survivorEntries base files).foldl
          (fun a e => appendGroup a e.1 e.2) []).length
        = (groupKeys ((survivorEntries base files).foldl
            (fun a e => appendGroup a e.1 e.2) [])).length := by
          unfold groupKeys
          rw [List.length_map]
      _ = (((survivorEntries base files).map Prod.fst).foldl insertKey []).length := by
          rw [h1]
          rfl
  rw [hlen]

theorem C4_witness :
    (generate_prompts_by_mutator (.valid ⟨some filesC6⟩)
        "stryker_prompts_by_mutator" "x/").result = .ok none :=
  ( C4_theorem
    "stryker_prompts_by_mutator" "x/" filesC6 (by decide)).2

/-- Claim C6: on the report with one file `"x/y.js"`, source
`"let a = 1;"`, one surviving mutant at line 1 with mutator `"Foo"` and no
replacement, run with prefix `"x/"`, exactly one output file
`foo_prompts.txt` is written, containing exactly one prompt with File
`` `y.js` ``, Line `1`, Mutator `` `Foo` ``, Original Code
`` `let a = 1;` `` and Mutated Code `` `N/A` `` (replacement defaulting to
`"N/A"`). -/
theorem C6_theorem :
    generate_prompts_by_mutator (.valid ⟨some filesC6⟩)
        "stryker_prompts_by_mutator" "x/" =
      ⟨[FSEvent.mkdir "stryker_prompts_by_mutator",
        FSEvent.write "stryker_prompts_by_mutator/foo_prompts.txt"
          "Write a unit test to detect a survived mutation\n\n- File: `y.js`\n- Line: 1\n- Mutator: `Foo`\n- Original Code: `let a = 1;`\n- Mutated Code: `N/A`\n\nThe test should fail if the mutation is present and pass otherwise."],
       ["Generated prompts for 1 mutators in 'stryker_prompts_by_mutator'"],
       .ok none⟩ := by
  rfl

/-- Claim C7: for every well-formed report and every mutator name with at
least one surviving mutant, the run writes that mutator's output file whose
content is the group's prompts joined by `"\n---\n"` (no trailing
separator), the prompts appearing in exactly the encounter order of their
surviving mutants — files in the mapping's native order, each file's
mutants in sequence order. -/
theorem C7_theorem (od base : String) (files : List (String × FileEntry))
    (hwf : wellFormed files = true) (mu : String)
    (hmem : mu ∈ (survivorEntries base files).map Prod.fst) :
    FSEvent.write (od ++ "/" ++ outputFilename mu)
      (String.intercalate "\n---\n"
        (((survivorEntries base files).filter (fun e => e.1 == mu)).map Prod.snd))
      ∈ (generate_prompts_by_mutator (.valid ⟨some files⟩) od base).events := by
  rw [run_wf od base files hwf]
  have hkey : mu ∈ groupKeys (groupFold (survivorEntries base files)) := by
    unfold groupFold
    rw [groupKeys_groupFold_gen (survivorEntries base files) []]
    exact (mem_foldl_insertKey _ _ _).mpr (Or.inr hmem)
  obtain ⟨g, hfind, hk1, hk2⟩ := find?_key_of_mem mu _ hkey
  have hg_mem : g ∈ groupFold (survivorEntries base files) :=
    List.mem_of_find?_eq_some hfind
  have hlook : lookupGroup (groupFold (survivorEntries base files)) mu =
      ((survivorEntries base files).filter (fun e => e.1 == mu)).map Prod.snd := by
    unfold groupFold
    rw [lookupGroup_groupFold_gen mu (survivorEntries base files) []]
    rfl
  apply List.mem_cons_of_mem
  refine List.mem_map.mpr ⟨g, hg_mem, ?_⟩
  rw [hk1, hk2, hlook]

theorem C7_witness :
    FSEvent.write ("stryker_prompts_by_mutator" ++ "/" ++ outputFilename "Foo")
      (String.intercalate "\n---\n"
        (((survivorEntries "x/" filesC6).filter (fun e => e.1 == "Foo")).map Prod.snd))
      ∈ (generate_prompts_by_mutator (.valid ⟨some filesC6⟩)
          "stryker_prompts_by_mutator" "x/").events :=
  C7_theorem "stryker_prompts_by_mutator" "x/" filesC6 (by decide) "Foo" (by decide)

/-- Claim C8: a mutant whose status is present and is any string other than
exactly `"Survived"` contributes nothing: deleting it from its file's
mutant list, wherever the file sits in the report and wherever the mutant
sits in the list, leaves the entire run's observable behaviour unchanged,
regardless of its other fields. -/
theorem C8_theorem (od base fp src : String) (fs₁ fs₂ : List (String × FileEntry))
    (ms₁ ms₂ : List Mutant) (m : Mutant) (st : String)
    (hst : m.status = some st) (hns : st ≠ "Survived") :
    generate_prompts_by_mutator
        (.valid ⟨some (fs₁ ++ (fp, ⟨some src, some (ms₁ ++ m :: ms₂)⟩) :: fs₂)⟩)
        od base =
      generate_prompts_by_mutator
        (.valid ⟨some (fs₁ ++ (fp, ⟨some src, some (ms₁ ++ ms₂)⟩) :: fs₂)⟩)
        od base := by
  have hskip : ∀ (lp src' : String) (gs : Groups),
      processMutant lp src' gs m = .ok gs := by
    intro lp src' gs
    simp only [processMutant, hst]
    rw [if_pos hns]
  have hml : ∀ (lp src' : String) (gs : Groups),
      (ms₁ ++ m :: ms₂).foldlM (processMutant lp src') gs =
        (ms₁ ++ ms₂).foldlM (processMutant lp src') gs := by
    intro lp src' gs
    induction ms₁ generalizing gs with
    | nil =>
      rw [List.nil_append, List.nil_append, List.foldlM_cons, hskip, except_bind_ok]
    | cons m₁ ms ih =>
      rw [List.cons_append, List.cons_append, List.foldlM_cons, List.foldlM_cons]
      cases h1 : processMutant lp src' gs m₁ with
      | error e => rfl
      | ok gs' =>
        rw [except_bind_ok, except_bind_ok]
        exact ih gs'
  have hfile : ∀ gs : Groups,
      processFile base gs (fp, ⟨some src, some (ms₁ ++ m :: ms₂)⟩) =
        processFile base gs (fp, ⟨some src, some (ms₁ ++ ms₂)⟩) := by
    intro gs
    unfold processFile
    exact hml _ _ gs
  have hfiles : ∀ gs : Groups,
      (fs₁ ++ (fp, (⟨some src, some (ms₁ ++ m :: ms₂)⟩ : FileEntry)) :: fs₂).foldlM
          (processFile base) gs =
        (fs₁ ++ (fp, (⟨some src, some (ms₁ ++ ms₂)⟩ : FileEntry)) :: fs₂).foldlM
          (processFile base) gs := by
    intro gs
    induction fs₁ generalizing gs with
    | nil =>
      rw [List.nil_append, List.nil_append, List.foldlM_cons, List.foldlM_cons, hfile]
    | cons f fs ih =>
      rw [List.cons_append, List.cons_append, List.foldlM_cons, List.foldlM_cons]
      cases h1 : processFile base gs f with
      | error e => rfl
      | ok gs' =>
        rw [except_bind_ok, except_bind_ok]
        exact ih gs'
  simp only [generate_prompts_by_mutator]
  unfold buildGroups
  rw [hfiles []]

theorem C8_witness :
    generate_prompts_by_mutator
        (.valid ⟨some [("f.js", ⟨some "x", some [⟨some "Killed", none, none, none⟩]⟩)]⟩)
        "out" "" =
      generate_prompts_by_mutator
        (.valid ⟨some [("f.js", ⟨some "x", some []⟩)]⟩) "out" "" :=
  C8_theorem "out" "" "f.js" "x" [] [] [] []
    ⟨some "Killed", none, none, none⟩ "Killed" rfl (by decide)

/-! ## Claim C5 -/

/-- Claim C5: if the report file's content is not valid JSON, or the parsed
document lacks the top-level `"files"` key, the run fails before any output
is produced: the file-system event trace is empty (the output directory is
not created and no file is written), nothing is printed, and the outcome is
a fatal error. -/
theorem C5_theorem (rf : ReportFile) (od base : String)
    (h : rf = .invalid ∨ ∃ d, rf = .valid d ∧ d.files = none) :
    (generate_prompts_by_mutator rf od base).events = [] ∧
    (generate_prompts_by_mutator rf od base).printed = [] ∧
    ∃ e, (generate_prompts_by_mutator rf od base).result = .error e := by
  rcases h with h | ⟨d, hd, hf⟩
  · subst h
    exact ⟨rfl, rfl, .jsonDecodeError, rfl⟩
  · subst hd
    rcases d with ⟨fl⟩
    simp only at hf
    subst hf
    exact ⟨rfl, rfl, .keyError "files", rfl⟩

theorem C5_witness :
    (generate_prompts_by_mutator .invalid "out" "").events = [] ∧
    (generate_prompts_by_mutator .invalid "out" "").printed = [] ∧
    ∃ e, (generate_prompts_by_mutator .invalid "out" "").result = .error e :=
  C5_theorem .invalid "out" "" (Or.inl rfl)

/-! ## Final file-system state (for C9) -/

lemma find?_fst_cons_pos {β : Type} {g : String × β} {gs : List (String × β)}
    {k : String} (h : (g.1 == k) = true) :
    (g :: gs).find? (fun x => x.1 == k) = some g :=
  List.find?_cons_of_pos gs h

lemma find?_fst_cons_neg {β : Type} {g : String × β} {gs : List (String × β)}
    {k : String} (h : ¬ (g.1 == k) = true) :
    (g :: gs).find? (fun x => x.1 == k) = gs.find? (fun x => x.1 == k) :=
  List.find?_cons_of_neg gs h

lemma lookupFile_map_overwrite (p c : String) :
    ∀ fs : List (String × String), fs.any (fun q => q.1 == p) = true →
      lookupFile (fs.map (fun q => if q.1 == p then (q.1, c) else q)) p = some c := by
  intro fs
  induction fs with
  | nil => intro h; simp at h
  | cons q fs ih =>
    intro h
    by_cases hq : (q.1 == p) = true
    · rw [List.map_cons, if_pos hq]
      unfold lookupFile
      rw [find?_fst_cons_pos (g := (q.1, c)) hq]
      rfl
    · have h' : fs.any (fun q => q.1 == p) = true := by
        rw [List.any_cons, Bool.or_eq_true] at h
        exact h.resolve_left hq
      rw [List.map_cons, if_neg hq]
      unfold lookupFile
      rw [find?_fst_cons_neg (g := q) hq]
      exact ih h'

lemma lookupFile_append_new (p c : String) :
    ∀ fs : List (String × String), fs.any (fun q => q.1 == p) = false →
      lookupFile (fs ++ [(p, c)]) p = some c := by
  intro fs
  induction fs with
  | nil =>
    intro _
    rw [List.nil_append]
    unfold lookupFile
    rw [find?_fst_cons_pos (beq_self_eq_true p)]
    rfl
  | cons q fs ih =>
    intro h
    rw [List.any_cons, Bool.or_eq_false_iff] at h
    rw [List.cons_append]
    unfold lookupFile
    rw [find?_fst_cons_neg (g := q) (by rw [h.1]; exact Bool.false_ne_true)]
    exact ih h.2

lemma lookupFile_applyEvent_write_self (p c : String) (fs : List (String × String)) :
    lookupFile (applyEvent fs (.write p c)) p = some c := by
  simp only [applyEvent]
  by_cases h : fs.any (fun q => q.1 == p) = true
  · rw [if_pos h]
    exact lookupFile_map_overwrite p c fs h
  · have h' : fs.any (fun q => q.1 == p) = false := by
      cases hb : fs.any (fun q => q.1 == p)
      · rfl
      · exact absurd hb h
    rw [if_neg h]
    exact lookupFile_append_new p c fs h'

lemma lookupFile_map_overwrite_other (p c p' : String) (hp : p' ≠ p) :
    ∀ fs : List (String × String),
      lookupFile (fs.map (fun q => if q.1 == p then (q.1, c) else q)) p' =
        lookupFile fs p' := by
  intro fs
  induction fs with
  | nil => rfl
  | cons q fs ih =>
    rw [List.map_cons]
    by_cases hq : (q.1 == p) = true
    · rw [if_pos hq]
      by_cases hq' : (q.1 == p') = true
      · exact absurd ((eq_of_beq hq').symm.trans (eq_of_beq hq)) hp
      · unfold lookupFile
        rw [find?_fst_cons_neg (g := (q.1, c)) hq', find?_fst_cons_neg (g := q) hq']
        exact ih
    · rw [if_neg hq]
      by_cases hq' : (q.1 == p') = true
      · unfold lookupFile
        rw [find?_fst_cons_pos (g := q) hq', find?_fst_cons_pos (g := q) hq']
      · unfold lookupFile
        rw [find?_fst_cons_neg (g := q) hq', find?_fst_cons_neg (g := q) hq']
        exact ih

lemma lookupFile_append_single_other (p c p' : String) (hp : p' ≠ p) :
    ∀ fs : List (String × String),
      lookupFile (fs ++ [(p, c)]) p' = lookupFile fs p' := by
  intro fs
  induction fs with
  | nil =>
    rw [List.nil_append]
    unfold lookupFile
    rw [find?_fst_cons_neg (by
      intro hb
      exact hp (eq_of_beq hb).symm)]
  | cons q fs ih =>
    rw [List.cons_append]
    by_cases hq' : (q.1 == p') = true
    · unfold lookupFile
      rw [find?_fst_cons_pos (g := q) hq', find?_fst_cons_pos (g := q) hq']
    · unfold lookupFile
      rw [find?_fst_cons_neg (g := q) hq', find?_fst_cons_neg (g := q) hq']
      exact ih

lemma lookupFile_applyEvent_write_other (p c p' : String) (hp : p' ≠ p)
    (fs : List (String × String)) :
    lookupFile (applyEvent fs (.write p c)) p' = lookupFile fs p' := by
  simp only [applyEvent]
  by_cases h : fs.any (fun q => q.1 == p) = true
  · rw [if_pos h]
    exact lookupFile_map_overwrite_other p c p' hp fs
  · rw [if_neg h]
    exact lookupFile_append_single_other p c p' hp fs

lemma getLast?_cons_or {α : Type} (a : α) (l : List α) :
    (a :: l).getLast? = match l.getLast? with
      | some x => some x
      | none => some a := by
  cases l with
  | nil => rfl
  | cons b t =>
    rw [List.getLast?_cons_cons]
    cases hx : (b :: t).getLast? with
    | none =>
      exfalso
      have hs : (b :: t).getLast?.isSome = true := List.getLast?_isSome.mpr (by simp)
      rw [hx] at hs
      simp at hs
    | some x => rfl

lemma lookupFile_foldl_writes {α : Type} (pf cf : α → String) (p : String) :
    ∀ (gs : List α) (fs : List (String × String)),
      lookupFile ((gs.map (fun g => FSEvent.write (pf g) (cf g))).foldl applyEvent fs) p =
        match (gs.filter (fun g => pf g == p)).getLast? with
        | some g => some (cf g)
        | none => lookupFile fs p := by
  intro gs
  induction gs with
  | nil => intro fs; rfl
  | cons g gs ih =>
    intro fs
    rw [List.map_cons, List.foldl_cons, ih, List.filter_cons]
    by_cases hg : (pf g == p) = true
    · rw [if_pos hg]
      rw [getLast?_cons_or]
      cases hL : (gs.filter (fun g => pf g == p)).getLast? with
      | some g' => rfl
      | none =>
        have hpg : pf g = p := eq_of_beq hg
        rw [← hpg]
        exact lookupFile_applyEvent_write_self (pf g) (cf g) fs
    · rw [if_neg hg]
      cases hL : (gs.filter (fun g => pf g == p)).getLast? with
      | some g' => rfl
      | none =>
        have hp : p ≠ pf g := fun hh => hg (by rw [hh]; exact beq_self_eq_true (pf g))
        exact lookupFile_applyEvent_write_other (pf g) (cf g) p hp fs

lemma any_fst_eq_files (fs : List (String × String)) (p : String) :
    fs.any (fun q => q.1 == p) = true ↔ p ∈ fs.map Prod.fst := by
  induction fs with
  | nil => simp
  | cons q fs ih =>
    rw [List.any_cons, Bool.or_eq_true, ih, List.map_cons, List.mem_cons]
    constructor
    · rintro (h | h)
      · exact Or.inl (eq_of_beq h).symm
      · exact Or.inr h
    · rintro (h | h)
      · exact Or.inl (by rw [h]; exact beq_self_eq_true q.1)
      · exact Or.inr h

lemma fst_map_overwrite (p c : String) :
    ∀ fs : List (String × String),
      (fs.map (fun q => if q.1 == p then (q.1, c) else q)).map Prod.fst =
        fs.map Prod.fst := by
  intro fs
  induction fs with
  | nil => rfl
  | cons q fs ih =>
    rw [List.map_cons, List.map_cons, List.map_cons]
    congr 1
    by_cases hq : (q.1 == p) = true
    · rw [if_pos hq]
    · rw [if_neg hq]

lemma fst_applyEvent_write (p c : String) (fs : List (String × String)) :
    (applyEvent fs (.write p c)).map Prod.fst = insertKey (fs.map Prod.fst) p := by
  simp only [applyEvent]
  unfold insertKey
  by_cases h : fs.any (fun q => q.1 == p) = true
  · rw [if_pos h, if_pos ((any_fst_eq_files fs p).mp h), fst_map_overwrite]
  · have h' : ¬ p ∈ fs.map Prod.fst := fun hm => h ((any_fst_eq_files fs p).mpr hm)
    rw [if_neg h, if_neg h', List.map_append]
    rfl

lemma finalFiles_keys {α : Type} (pf cf : α → String) :
    ∀ (gs : List α) (fs : List (String × String)),
      (((gs.map (fun g => FSEvent.write (pf g) (cf g))).foldl applyEvent fs).map
          Prod.fst) =
        (gs.map pf).foldl insertKey (fs.map Prod.fst) := by
  intro gs
  induction gs with
  | nil => intro fs; rfl
  | cons g gs ih =>
    intro fs
    rw [List.map_cons, List.foldl_cons, List.map_cons, List.foldl_cons, ih,
      fst_applyEvent_write]

lemma foldl_insertKey_length_le :
    ∀ (l ks : List String), (l.foldl insertKey ks).length ≤ ks.length + l.length := by
  intro l
  induction l with
  | nil => intro ks; simp
  | cons a t ih =>
    intro ks
    rw [List.foldl_cons]
    have h1 := ih (insertKey ks a)
    have h2 : (insertKey ks a).length ≤ ks.length + 1 := by
      unfold insertKey
      by_cases h : a ∈ ks
      · rw [if_pos h]; omega
      · rw [if_neg h]; simp
    simp only [List.length_cons]
    omega

lemma foldl_insertKey_length_lt :
    ∀ (l ks : List String), ((∃ x, x ∈ ks ∧ x ∈ l) ∨ ¬ l.Nodup) →
      (l.foldl insertKey ks).length < ks.length + l.length := by
  intro l
  induction l with
  | nil =>
    intro ks h
    rcases h with ⟨x, -, hx⟩ | h
    · simp at hx
    · exact absurd List.nodup_nil h
  | cons a t ih =>
    intro ks h
    rw [List.foldl_cons]
    by_cases ha : a ∈ ks
    · have hins : insertKey ks a = ks := by
        unfold insertKey
        rw [if_pos ha]
      rw [hins]
      have := foldl_insertKey_length_le t ks
      simp only [List.length_cons]
      omega
    · have hins : insertKey ks a = ks ++ [a] := by
        unfold insertKey
        rw [if_neg ha]
      rw [hins]
      have hnew : (∃ x, x ∈ (ks ++ [a]) ∧ x ∈ t) ∨ ¬ t.Nodup := by
        rcases h with ⟨x, hxk, hxl⟩ | h
        · have hxa : x ≠ a := fun he => ha (he ▸ hxk)
          have hxt : x ∈ t := by
            rcases List.mem_cons.mp hxl with he | ht
            · exact absurd he hxa
            · exact ht
          exact Or.inl ⟨x, List.mem_append_left _ hxk, hxt⟩
        · by_cases hat : a ∈ t
          · exact Or.inl ⟨a, List.mem_append_right _ (List.mem_singleton_self a), hat⟩
          · refine Or.inr fun hnd => h ?_
            rw [List.nodup_cons]
            exact ⟨hat, hnd⟩
      have := ih (ks ++ [a]) hnew
      simp only [List.length_append, List.length_singleton, List.length_cons,
        List.length_nil] at this ⊢
      omega

lemma not_nodup_map_of_collision {α : Type} (f : String → α) :
    ∀ (l : List String) (a b : String), l.Nodup → a ∈ l → b ∈ l → a ≠ b →
      f a = f b → ¬ (l.map f).Nodup := by
  intro l
  induction l with
  | nil => intro a b _ ha; simp at ha
  | cons x t ih =>
    intro a b hnd ha hb hab hf
    rw [List.nodup_cons] at hnd
    rw [List.map_cons, List.nodup_cons]
    rintro ⟨hfx, hmt⟩
    rcases List.mem_cons.mp ha with rfl | hat
    · have hbt : b ∈ t := by
        rcases List.mem_cons.mp hb with rfl | h
        · exact absurd rfl hab
        · exact h
      apply hfx
      rw [hf]
      exact List.mem_map_of_mem f hbt
    · rcases List.mem_cons.mp hb with rfl | hbt
      · apply hfx
        rw [← hf]
        exact List.mem_map_of_mem f hat
      · exact ih a b hnd.2 hat hbt hab hf hmt

lemma finalFiles_cons_mkdir (d : String) (ws : List FSEvent) :
    finalFiles (.mkdir d :: ws) = finalFiles ws := rfl

lemma finalFiles_writes_count_lt {α : Type} (pf cf : α → String) (gs : List α)
    (hnd : ¬ (gs.map pf).Nodup) :
    (finalFiles (gs.map (fun g => FSEvent.write (pf g) (cf g)))).length < gs.length := by
  unfold finalFiles
  have hkeys := finalFiles_keys pf cf gs []
  have hlen : ((gs.map (fun g => FSEvent.write (pf g) (cf g))).foldl
      applyEvent []).length = ((gs.map pf).foldl insertKey []).length := by
    have h2 := congrArg List.length hkeys
    rw [List.length_map] at h2
    exact h2
  rw [hlen]
  have := foldl_insertKey_length_lt (gs.map pf) [] (Or.inr hnd)
  rw [List.length_map] at this
  simpa using this

lemma finalFiles_writes_lookup {α : Type} (pf cf : α → String) (gs : List α)
    (p : String) :
    lookupFile (finalFiles (gs.map (fun g => FSEvent.write (pf g) (cf g)))) p =
      ((gs.filter (fun g => pf g == p)).getLast?).map cf := by
  unfold finalFiles
  rw [lookupFile_foldl_writes pf cf p gs []]
  cases hL : (gs.filter (fun g => pf g == p)).getLast? with
  | none => rfl
  | some g => rfl

/-! ## Claims C9 and C10 -/

/-- Claim C9: when two distinct `mutatorName` values among surviving mutants
normalize to the same output filename, the group written later overwrites
the earlier file, so the final directory holds strictly fewer files than
there are distinct mutator groups, and, for every path, the final content is
the joined prompts of the last group (groups being iterated in
first-encounter order of mutator names) whose filename maps to that path. -/
theorem C9_theorem (od base : String) (files : List (String × FileEntry))
    (hwf : wellFormed files = true) (m1 m2 : String) (hne : m1 ≠ m2)
    (hcoll : sanitizeMutator m1 = sanitizeMutator m2)
    (h1 : m1 ∈ (survivorEntries base files).map Prod.fst)
    (h2 : m2 ∈ (survivorEntries base files).map Prod.fst) :
    (finalFiles
        (generate_prompts_by_mutator (.valid ⟨some files⟩) od base).events).length
        < (groupFold (survivorEntries base files)).length ∧
    ∀ p : String,
      lookupFile (finalFiles
          (generate_prompts_by_mutator (.valid ⟨some files⟩) od base).events) p =
        (((groupFold (survivorEntries base files)).filter
            (fun g => od ++ "/" ++ outputFilename g.1 == p)).getLast?).map
          (fun g => String.intercalate "\n---\n" g.2) := by
  have hev : (generate_prompts_by_mutator (.valid ⟨some files⟩) od base).events =
      FSEvent.mkdir od :: (groupFold (survivorEntries base files)).map
        (fun g => FSEvent.write (od ++ "/" ++ outputFilename g.1)
          (String.intercalate "\n---\n" g.2)) := by
    rw [run_wf od base files hwf]
  have hkeys : (groupFold (survivorEntries base files)).map Prod.fst =
      ((survivorEntries base files).map Prod.fst).foldl insertKey [] := by
    have h := groupKeys_groupFold_gen (survivorEntries base files) []
    unfold groupKeys at h
    unfold groupFold
    exact h
  have hknd : ((groupFold (survivorEntries base files)).map Prod.fst).Nodup := by
    rw [hkeys]
    exact nodup_foldl_insertKey _ [] List.nodup_nil
  have hm1 : m1 ∈ (groupFold (survivorEntries base files)).map Prod.fst := by
    rw [hkeys]
    exact (mem_foldl_insertKey _ _ _).mpr (Or.inr h1)
  have hm2 : m2 ∈ (groupFold (survivorEntries base files)).map Prod.fst := by
    rw [hkeys]
    exact (mem_foldl_insertKey _ _ _).mpr (Or.inr h2)
  have hcol : od ++ "/" ++ outputFilename m1 = od ++ "/" ++ outputFilename m2 := by
    unfold outputFilename
    rw [hcoll]
  have hnd : ¬ (((groupFold (survivorEntries base files)).map Prod.fst).map
      (fun m => od ++ "/" ++ outputFilename m)).Nodup :=
    not_nodup_map_of_collision (fun m => od ++ "/" ++ outputFilename m) _
      m1 m2 hknd hm1 hm2 hne hcol
  have hmm : (((groupFold (survivorEntries base files)).map Prod.fst).map
      (fun m => od ++ "/" ++ outputFilename m)) =
      (groupFold (survivorEntries base files)).map
        (fun g => od ++ "/" ++ outputFilename g.1) := by
    rw [List.map_map]
    rfl
  rw [hmm] at hnd
  constructor
  · rw [hev, finalFiles_cons_mkdir]
    exact finalFiles_writes_count_lt (α := String × List String)
      (fun g => od ++ "/" ++ outputFilename g.1)
      (fun g => String.intercalate "\n---\n" g.2) _ hnd
  · intro p
    rw [hev, finalFiles_cons_mkdir]
    exact finalFiles_writes_lookup (α := String × List String)
      (fun g => od ++ "/" ++ outputFilename g.1)
      (fun g => String.intercalate "\n---\n" g.2) _ p

theorem C9_witness :
    (finalFiles
        (generate_prompts_by_mutator (.valid ⟨some filesC9⟩) "out" "").events).length
      < (groupFold (survivorEntries "" filesC9)).length :=
  ( C9_theorem
    "out" "" filesC9 (by decide) "Foo" "F*oo" (by decide) (by decide)
    (by decide) (by decide)).1

/-- Claim C10: a mutant record lacking the `"status"` key aborts the whole
run with a fatal key-lookup error and no output (status is mandatory),
whereas a mutant whose status is present but not `"Survived"` is skipped
right after the status check, so it may lack `location.start.line`,
`mutatorName` and `replacement` without causing any error. -/
theorem C10_theorem :
    (∀ (lp src : String) (gs : Groups) (m : Mutant), m.status = none →
      processMutant lp src gs m = .error (.keyError "status")) ∧
    (∀ (lp src : String) (gs : Groups) (st : String) (loc : Option Int)
        (rep mu : Option String), st ≠ "Survived" →
      processMutant lp src gs ⟨some st, loc, rep, mu⟩ = .ok gs) ∧
    (∀ (od base fp src : String) (m : Mutant) (ms : List Mutant),
        m.status = none →
      generate_prompts_by_mutator
          (.valid ⟨some [(fp, ⟨some src, some (m :: ms)⟩)]⟩) od base =
        ⟨[], [], .error (.keyError "status")⟩) := by
  refine ⟨?_, ?_, ?_⟩
  · intro lp src gs m hm
    simp only [processMutant, hm]
  · intro lp src gs st loc rep mu hst
    simp only [processMutant]
    rw [if_pos hst]
  · intro od base fp src m ms hm
    have hfail : processMutant (pyReplaceAll fp base) src [] m =
        .error (.keyError "status") := by
      simp only [processMutant, hm]
    have h2 : processFile base [] (fp, (⟨some src, some (m :: ms)⟩ : FileEntry)) =
        .error (.keyError "status") := by
      show (m :: ms).foldlM (processMutant (pyReplaceAll fp base) src) [] =
        .error (.keyError "status")
      rw [List.foldlM_cons, hfail]
      rfl
    have h1 : buildGroups base [(fp, (⟨some src, some (m :: ms)⟩ : FileEntry))] =
        .error (.keyError "status") := by
      unfold buildGroups
      rw [List.foldlM_cons, h2]
      rfl
    simp only [generate_prompts_by_mutator]
    rw [h1]

theorem C10_witness :
    processMutant "lp" "src" [] ⟨none, none, none, none⟩ =
      .error (.keyError "status") :=
  C10_theorem.1 "lp" "src" [] ⟨none, none, none, none⟩ rfl

end GeneratePrompts
